import Mathlib

/-!
Verification development for the gym voice bot core
(exercise resolver, aggregation and record engine, workout session flow).

Conventions of the embedding:
- Python floats and `Decimal` values are modelled as `ℚ` (constants such as
  `0.85` are written `mkRat 17 20` so that terms evaluate in the kernel).
- Python strings are modelled as `String`; normalisation (strip / lower) is
  done on the underlying character list, matching `str.strip().lower()` for
  the ASCII inputs the theorems use.
- Python's substring test `a in b` is `contains_sub a b` (the empty string is
  a substring of everything, as in Python).
- Python's stable `list.sort(key=lambda x: -x[0])` is modelled with
  `List.insertionSort` on the "score is at least" relation; a stable sort's
  output is uniquely determined by the comparator, so this agrees with the
  source's sort.
- Database rows are records in ordinary lists; `async` I/O is dropped and the
  functions become pure state transformers.
-/

namespace GymVoiceBot

/-! ### String normalisation helpers (bot/services/nlp.py) -/

/-- Characters of `s` with leading and trailing whitespace removed: the
character-list form of Python `str.strip()` (ASCII whitespace; Python also
strips some further Unicode spaces, which no input here uses). -/
def strip_chars (l : List Char) : List Char :=
  ((l.dropWhile Char.isWhitespace).reverse.dropWhile Char.isWhitespace).reverse

/-- Python `s.strip()`. -/
def py_strip (s : String) : String := ⟨strip_chars s.data⟩

/-- Python `s.strip().lower()` as a character list; embeds
`_normalize_name` from bot/services/nlp.py (empty input gives `[]`). -/
def normalize_name (s : String) : List Char :=
  (strip_chars s.data).map Char.toLower

/-- Python `needle in hay` on strings (character lists): substring
containment, true for an empty needle. -/
def contains_sub (needle : List Char) : List Char → Bool
  | [] => needle.isEmpty
  | c :: t => needle.isPrefixOf (c :: t) || contains_sub needle t

/-! ### Exercise resolver (match_exercise, bot/services/nlp.py lines 120-168) -/

/-- One catalog row as seen by `match_exercise`: dict with keys
`id`, `name`, `name_en` (optional, `""` when missing), `synonyms`. -/
structure ExerciseEntry where
  id : Option Nat
  name : String
  name_en : String := ""
  synonyms : List String := []
deriving DecidableEq, Repr

/-- A candidate dict `{"exercise_id": ..., "name": ..., "confidence": ...}`. -/
structure Candidate where
  exercise_id : Option Nat
  name : String
  confidence : ℚ
deriving DecidableEq, Repr

/-- Result dict of `match_exercise`. -/
structure MatchResult where
  exercise_id : Option Nat
  name : String
  confidence : ℚ
  alternatives : List Candidate
deriving DecidableEq, Repr

/-- The tiered per-entry scoring of `match_exercise`: exact name or
localized-name match scores 1.0 (confidence 1.0); substring containment
against the name scores 0.95 (confidence 0.9); against the localized name
0.9 (confidence 0.85); against any synonym 0.85 (confidence 0.8); otherwise
the entry yields no candidate. `nq` is the normalized query. -/
def tier_candidate (nq : List Char) (ex : ExerciseEntry) : Option (ℚ × Candidate) :=
  if nq = normalize_name ex.name ∨ nq = normalize_name ex.name_en then
    some (1, ⟨ex.id, ex.name, 1⟩)
  else if contains_sub nq (normalize_name ex.name) ∨
          contains_sub (normalize_name ex.name) nq then
    some (mkRat 19 20, ⟨ex.id, ex.name, mkRat 9 10⟩)
  else if contains_sub nq (normalize_name ex.name_en) ∨
          contains_sub (normalize_name ex.name_en) nq then
    some (mkRat 9 10, ⟨ex.id, ex.name, mkRat 17 20⟩)
  else if ex.synonyms.any (fun syn =>
      decide (nq = normalize_name syn) || contains_sub nq (normalize_name syn) ||
        contains_sub (normalize_name syn) nq) then
    some (mkRat 17 20, ⟨ex.id, ex.name, mkRat 4 5⟩)
  else
    none

/-- Ordering used by `candidates.sort(key=lambda x: -x[0])`: descending by
score. -/
def score_ge (a b : ℚ × Candidate) : Prop := b.1 ≤ a.1

instance : DecidableRel score_ge := fun a b => inferInstanceAs (Decidable (b.1 ≤ a.1))

instance : IsTotal (ℚ × Candidate) score_ge := ⟨fun a b => le_total b.1 a.1⟩

instance : IsTrans (ℚ × Candidate) score_ge := ⟨fun _ _ _ hab hbc => le_trans hbc hab⟩

/-- Stable descending sort of the candidate list (Python's `list.sort` is
stable, and a stable sort is determined by its comparator). -/
def sort_candidates (l : List (ℚ × Candidate)) : List (ℚ × Candidate) :=
  List.insertionSort score_ge l

/-- Embeds `match_exercise` (bot/services/nlp.py lines 120-168): empty query
or empty catalog give confidence 0; otherwise all tier candidates are
collected, sorted by descending score, the best becomes the result and the
next five its alternatives. -/
def match_exercise (exercise_name : String) (exercises_db : List ExerciseEntry) :
    MatchResult :=
  if exercise_name = "" ∨ exercises_db = [] then
    ⟨none, exercise_name, 0, []⟩
  else if normalize_name exercise_name = [] then
    ⟨none, exercise_name, 0, []⟩
  else
    match sort_candidates
        (exercises_db.filterMap (tier_candidate (normalize_name exercise_name))) with
    | [] => ⟨none, exercise_name, 0, []⟩
    | best :: rest =>
      ⟨best.2.exercise_id, best.2.name, best.2.confidence, (rest.take 5).map (·.2)⟩

/-! ### Generic facts about the resolver -/

theorem tier_candidate_cases {nq : List Char} {ex : ExerciseEntry} {c : ℚ × Candidate}
    (h : tier_candidate nq ex = some c) :
    (c.1 = 1 ∧ c.2.confidence = 1) ∨
    (c.1 = mkRat 19 20 ∧ c.2.confidence = mkRat 9 10) ∨
    (c.1 = mkRat 9 10 ∧ c.2.confidence = mkRat 17 20) ∨
    (c.1 = mkRat 17 20 ∧ c.2.confidence = mkRat 4 5) := by
  simp only [tier_candidate] at h
  repeat' split at h
  all_goals cases h
  · exact Or.inl ⟨rfl, rfl⟩
  · exact Or.inr (Or.inl ⟨rfl, rfl⟩)
  · exact Or.inr (Or.inr (Or.inl ⟨rfl, rfl⟩))
  · exact Or.inr (Or.inr (Or.inr ⟨rfl, rfl⟩))

theorem sort_candidates_perm (l : List (ℚ × Candidate)) :
    (sort_candidates l).Perm l :=
  List.perm_insertionSort score_ge l

theorem sort_candidates_sorted (l : List (ℚ × Candidate)) :
    (sort_candidates l).Sorted score_ge :=
  List.sorted_insertionSort score_ge l

theorem tier_candidate_score_le_one {nq : List Char} {ex : ExerciseEntry}
    {c : ℚ × Candidate} (h : tier_candidate nq ex = some c) : c.1 ≤ 1 := by
  rcases tier_candidate_cases h with ⟨h1, _⟩ | ⟨h1, _⟩ | ⟨h1, _⟩ | ⟨h1, _⟩ <;>
    rw [h1] <;> decide

theorem tier_candidate_top_confidence {nq : List Char} {ex : ExerciseEntry}
    {c : ℚ × Candidate} (h : tier_candidate nq ex = some c) (h1 : c.1 = 1) :
    c.2.confidence = 1 := by
  rcases tier_candidate_cases h with ⟨_, h2⟩ | ⟨hs, _⟩ | ⟨hs, _⟩ | ⟨hs, _⟩
  · exact h2
  all_goals rw [hs] at h1; exact absurd h1 (by decide)

/-- C9: the resolver only ever returns a confidence in
{0, 0.8, 0.85, 0.9, 1.0} (so no value strictly between 0 and 0.6 occurs and
the below-0.6 band is entered only at confidence exactly 0), and it returns
at most 5 alternatives. -/
theorem resolver_confidence_menu (q : String) (db : List ExerciseEntry) :
    (match_exercise q db).confidence ∈ [(0 : ℚ), mkRat 4 5, mkRat 17 20, mkRat 9 10, 1]
    ∧ (match_exercise q db).alternatives.length ≤ 5
    ∧ ((match_exercise q db).confidence = 0 ∨ mkRat 3 5 ≤ (match_exercise q db).confidence) := by
  unfold match_exercise
  split
  · exact ⟨by simp, by simp, Or.inl rfl⟩
  · split
    · exact ⟨by simp, by simp, Or.inl rfl⟩
    · split
      · exact ⟨by simp, by simp, Or.inl rfl⟩
      · rename_i best rest heq
        have hb : best ∈ sort_candidates (db.filterMap (tier_candidate (normalize_name q))) := by
          rw [heq]; exact List.mem_cons_self _ _
        have hb2 : best ∈ db.filterMap (tier_candidate (normalize_name q)) :=
          (sort_candidates_perm _).subset hb
        obtain ⟨ex, _, htc⟩ := List.mem_filterMap.mp hb2
        refine ⟨?_, ?_, ?_⟩
        · rcases tier_candidate_cases htc with ⟨_, hc⟩ | ⟨_, hc⟩ | ⟨_, hc⟩ | ⟨_, hc⟩ <;>
            simp only [hc] <;> decide
        · simp only [List.length_map, List.length_take]
          exact min_le_left _ _
        · rcases tier_candidate_cases htc with ⟨_, hc⟩ | ⟨_, hc⟩ | ⟨_, hc⟩ | ⟨_, hc⟩ <;>
            exact Or.inr (by simp only [hc]; decide)

/-- Catalog with an exactly matching entry plus a second entry that also
matches by substring containment. -/
def c6_db : List ExerciseEntry :=
  [⟨some 0, "Bench Press", "", []⟩, ⟨some 1, "Bench Press Wide", "", []⟩]

/-- C6 counterexample: on an exact canonical-name match the resolver does
return confidence 1.0, but the alternatives list is not empty when another
catalog entry also matches (here by substring containment), contradicting
the claim's "empty alternatives list". -/
theorem exact_match_alternatives_nonempty :
    (match_exercise "Bench Press" c6_db).confidence = 1 ∧
    (match_exercise "Bench Press" c6_db).alternatives ≠ [] := by decide

/-- C6 amended: when the normalized candidate name exactly equals the
canonical or localized name of some entry, the resolver returns confidence
1.0; the alternatives list is empty exactly when the matching entry is the
only entry of the catalog producing a candidate at any tier. -/
theorem exact_match_confidence_one (q : String) (db : List ExerciseEntry)
    (hq : normalize_name q ≠ [])
    (h : ∃ ex ∈ db, normalize_name q = normalize_name ex.name ∨
                    normalize_name q = normalize_name ex.name_en) :
    (match_exercise q db).confidence = 1 ∧
    ((match_exercise q db).alternatives = [] ↔
      (db.filterMap (tier_candidate (normalize_name q))).length ≤ 1) := by
  obtain ⟨ex, hex, hcond⟩ := h
  have hq0 : ¬(q = "" ∨ db = []) := by
    rintro (rfl | rfl)
    · exact hq rfl
    · exact absurd hex (List.not_mem_nil ex)
  have htc : tier_candidate (normalize_name q) ex = some (1, ⟨ex.id, ex.name, 1⟩) := by
    unfold tier_candidate
    rw [if_pos hcond]
  have hmem : (1, (⟨ex.id, ex.name, 1⟩ : Candidate)) ∈
      db.filterMap (tier_candidate (normalize_name q)) :=
    List.mem_filterMap.mpr ⟨ex, hex, htc⟩
  unfold match_exercise
  rw [if_neg hq0, if_neg hq]
  split
  · rename_i heq
    have : (1, (⟨ex.id, ex.name, 1⟩ : Candidate)) ∈
        sort_candidates (db.filterMap (tier_candidate (normalize_name q))) :=
      ((sort_candidates_perm _).mem_iff).mpr hmem
    rw [heq] at this
    exact absurd this (List.not_mem_nil _)
  · rename_i best rest heq
    have hsorted := sort_candidates_sorted (db.filterMap (tier_candidate (normalize_name q)))
    rw [heq] at hsorted
    have hball : ∀ x ∈ rest, score_ge best x := (List.sorted_cons.mp hsorted).1
    have hb : best ∈ sort_candidates (db.filterMap (tier_candidate (normalize_name q))) := by
      rw [heq]; exact List.mem_cons_self _ _
    have hb2 : best ∈ db.filterMap (tier_candidate (normalize_name q)) :=
      (sort_candidates_perm _).subset hb
    obtain ⟨ex', _, htc'⟩ := List.mem_filterMap.mp hb2
    have hconf : best.2.confidence = 1 := by
      have hmem2 : (1, (⟨ex.id, ex.name, 1⟩ : Candidate)) ∈ best :: rest := by
        rw [← heq]
        exact ((sort_candidates_perm _).mem_iff).mpr hmem
      rcases List.mem_cons.mp hmem2 with hbe | hrest
      · rw [← hbe]
      · have h1 : (1 : ℚ) ≤ best.1 := hball _ hrest
        have h2 : best.1 ≤ 1 := tier_candidate_score_le_one htc'
        exact tier_candidate_top_confidence htc' (le_antisymm h2 h1)
    refine ⟨hconf, ?_⟩
    have hlen : (db.filterMap (tier_candidate (normalize_name q))).length = rest.length + 1 := by
      have := (sort_candidates_perm (db.filterMap (tier_candidate (normalize_name q)))).length_eq
      rw [heq] at this
      simpa using this.symm
    rw [hlen]
    constructor
    · intro halt
      have : rest = [] := by
        rcases List.take_eq_nil_iff.mp (List.map_eq_nil_iff.mp halt) with h5 | hr
        · exact absurd h5 (by norm_num)
        · exact hr
      simp [this]
    · intro hle
      have : rest = [] := List.length_eq_zero.mp (by omega)
      simp [this]

/-- C6 amended witness: the amended theorem applied to the exact query
"Bench Press" against the two-entry catalog. -/
theorem exact_match_confidence_one_witness :
    (match_exercise "Bench Press" c6_db).confidence = 1 ∧
    ((match_exercise "Bench Press" c6_db).alternatives = [] ↔
      (c6_db.filterMap (tier_candidate (normalize_name "Bench Press"))).length ≤ 1) :=
  exact_match_confidence_one "Bench Press" c6_db (by decide) (by decide)

/-! ### One-rep-max (calculate_1rm, bot/database/crud.py lines 509-515) -/

/-- Embeds `calculate_1rm`: Epley formula, with `reps ≤ 0` and `reps = 1`
both returning the weight unchanged. -/
def calculate_1rm (reps : ℤ) (weight : ℚ) : ℚ :=
  if reps ≤ 0 then weight
  else if reps = 1 then weight
  else weight * (1 + (reps : ℚ) / 30)

/-- C7: for every weight w ≥ 0 and integer reps r, the one-rep-max estimate
is w itself when r ≤ 1 (including r = 0 and negative r) and
w × (1 + r/30) when r > 1. -/
theorem one_rm_epley (w : ℚ) (r : ℤ) (_hw : 0 ≤ w) :
    (r ≤ 1 → calculate_1rm r w = w) ∧
    (1 < r → calculate_1rm r w = w * (1 + (r : ℚ) / 30)) := by
  unfold calculate_1rm
  constructor
  · intro hr
    split
    · rfl
    · rw [if_pos (by omega)]
  · intro hr
    rw [if_neg (by omega), if_neg (by omega)]

/-- C7 witness: the theorem evaluated at w = 80 with r = 0, r = 1 and r = 5. -/
theorem one_rm_epley_witness :
    calculate_1rm 0 80 = 80 ∧ calculate_1rm 1 80 = 80 ∧
    calculate_1rm 5 80 = 80 * (1 + (5 : ℚ) / 30) :=
  ⟨(one_rm_epley 80 0 (by norm_num)).1 (by norm_num),
   (one_rm_epley 80 1 (by norm_num)).1 (by norm_num),
   (one_rm_epley 80 5 (by norm_num)).2 (by norm_num)⟩

/-! ### Week comparison (get_week_comparison, bot/database/crud.py lines 612-660) -/

/-- Python `round(x)` for rationals: round half to even (banker's rounding). -/
def round_half_even (q : ℚ) : ℤ :=
  if q - ⌊q⌋ < 1 / 2 then ⌊q⌋
  else if 1 / 2 < q - ⌊q⌋ then ⌊q⌋ + 1
  else if ⌊q⌋ % 2 = 0 then ⌊q⌋ else ⌊q⌋ + 1

/-- Python `round(x, 1)`: one decimal place, half to even. -/
def round1 (q : ℚ) : ℚ := (round_half_even (q * 10) : ℚ) / 10

/-- Embeds the tail of `get_week_comparison` (crud.py lines 649-660): the
percent delta of the two weekly volume totals, rounded to one decimal. -/
def week_diff_percent (prev_vol curr_vol : ℚ) : ℚ :=
  round1 (if prev_vol = 0 then (if 0 < curr_vol then 100 else 0)
          else (curr_vol - prev_vol) / prev_vol * 100)

theorem round1_intCast (n : ℤ) : round1 (n : ℚ) = (n : ℚ) := by
  unfold round1 round_half_even
  have h10 : ((n : ℚ) * 10) = ((n * 10 : ℤ) : ℚ) := by push_cast; ring
  rw [h10, Int.floor_intCast]
  rw [if_pos (by simp)]
  push_cast
  ring

/-- C8: the week-comparison percent delta is (curr − prev)/prev × 100 when
prev ≠ 0, is 100 when prev = 0 < curr, and is 0 when prev = curr = 0, the
returned value being rounded to one decimal place. -/
theorem week_comparison_delta (prev curr : ℚ) :
    (prev ≠ 0 → week_diff_percent prev curr = round1 ((curr - prev) / prev * 100)) ∧
    (prev = 0 → 0 < curr → week_diff_percent prev curr = 100) ∧
    (prev = 0 → curr = 0 → week_diff_percent prev curr = 0) := by
  refine ⟨fun hp => ?_, fun hp hc => ?_, fun hp hc => ?_⟩
  · unfold week_diff_percent
    rw [if_neg hp]
  · unfold week_diff_percent
    rw [if_pos hp, if_pos hc]
    simpa using round1_intCast 100
  · unfold week_diff_percent
    rw [if_pos hp, if_neg (by rw [hc]; exact lt_irrefl 0)]
    simpa using round1_intCast 0

/-- C8 witness: the theorem evaluated at the pairs (0, 5), (0, 0) and
(50, 75). -/
theorem week_comparison_delta_witness :
    week_diff_percent 0 5 = 100 ∧ week_diff_percent 0 0 = 0 ∧
    week_diff_percent 50 75 = round1 ((75 - 50) / 50 * 100) :=
  ⟨(week_comparison_delta 0 5).2.1 rfl (by norm_num),
   (week_comparison_delta 0 0).2.2 rfl rfl,
   (week_comparison_delta 50 75).1 (by norm_num)⟩

/-! ### Workout ingestion and mutation
(add_workout_sets_with_session, remove_last_set, delete_last_workout_exercise;
bot/database/crud.py lines 361-407 and 696-738) -/

/-- One element of the `sets` argument of `add_workout_sets`: a dict with
`exercise_name`, optional `reps` and optional `weight_kg`. -/
structure SetDict where
  exercise_name : String
  reps : Option ℤ
  weight_kg : Option ℚ
deriving DecidableEq, Repr

/-- A persisted row of the `sets` table (the fields the claims need). -/
structure SetRow where
  set_number : ℕ
  reps : Option ℤ
  weight_kg : Option ℚ
deriving DecidableEq, Repr

/-- A persisted row of the `workout_exercises` table. `exercise` is the
joined `Exercise` row's name (`none` models a dangling reference, as tested
by `if not we.exercise` in `check_and_save_records`). -/
structure WorkoutExerciseRow where
  exercise_id : ℕ
  exercise : Option String
  order_num : ℕ
  sets : List SetRow
  volume_kg : Option ℚ
deriving DecidableEq, Repr

/-- A row of the `exercises` table (the fields the claims need). -/
structure ExerciseRow where
  id : ℕ
  name : String
deriving DecidableEq, Repr

/-- The state one workout's ingestion operates on: the global exercise
table (with the next fresh id) and this workout's `workout_exercises` in
insertion order. -/
structure WorkoutState where
  exercises : List ExerciseRow
  next_exercise_id : ℕ
  wes : List WorkoutExerciseRow
deriving DecidableEq, Repr

/-- Python `(s.get("exercise_name") or "").strip() or "Упражнение"`. -/
def effective_name (s : SetDict) : String :=
  if py_strip s.exercise_name = "" then "Упражнение" else py_strip s.exercise_name

/-- Appends `s` to the group named `name`, creating the group at the end if
absent: insertion-ordered grouping, as a Python dict with `setdefault`. -/
def group_insert (name : String) (s : SetDict) :
    List (String × List SetDict) → List (String × List SetDict)
  | [] => [(name, [s])]
  | (n, g) :: rest =>
    if n = name then (n, g ++ [s]) :: rest else (n, g) :: group_insert name s rest

/-- The `by_exercise` grouping of `add_workout_sets_with_session`. -/
def group_by_exercise (sets : List SetDict) : List (String × List SetDict) :=
  sets.foldl (fun acc s => group_insert (effective_name s) s acc) []

/-- The `Set` rows built for one exercise: `set_number = i + 1` from
`enumerate`, reps and weight copied from the dict. -/
def build_sets_from (n : ℕ) : List SetDict → List SetRow
  | [] => []
  | s :: rest => ⟨n + 1, s.reps, s.weight_kg⟩ :: build_sets_from (n + 1) rest

/-- The `volume` accumulation of the ingestion loop: adds `weight × reps`
for each dict where both are present. -/
def volume_step (v : ℚ) (s : SetDict) : ℚ :=
  match s.weight_kg, s.reps with
  | some w, some r => v + w * (r : ℚ)
  | _, _ => v

def weighted_volume (g : List SetDict) : ℚ := g.foldl volume_step 0

/-- Find-or-create of an `Exercise` row by exact name. -/
def find_or_create_exercise (st : WorkoutState) (name : String) :
    ExerciseRow × WorkoutState :=
  match st.exercises.find? (fun e => e.name = name) with
  | some e => (e, st)
  | none =>
    (⟨st.next_exercise_id, name⟩,
     { st with exercises := st.exercises ++ [⟨st.next_exercise_id, name⟩],
               next_exercise_id := st.next_exercise_id + 1 })

/-- One iteration of the `for exercise_name, exercise_sets in
by_exercise.items()` loop: creates the `WorkoutExercise` with the given
`order_num`, its `Set` rows, and `volume_kg = volume if volume else None`. -/
def ingest_group (p : WorkoutState × ℕ) (ng : String × List SetDict) :
    WorkoutState × ℕ :=
  let (ex, st) := find_or_create_exercise p.1 ng.1
  let v := weighted_volume ng.2
  ({ st with wes := st.wes ++
      [⟨ex.id, some ex.name, p.2, build_sets_from 0 ng.2,
        if v = 0 then none else some v⟩] },
   p.2 + 1)

/-- Embeds `add_workout_sets_with_session` (crud.py lines 696-738).
Note the loop counter `order_num` starts at 0 on every call, exactly as in
the source (`order_num = 0` before the loop). -/
def add_workout_sets_with_session (st : WorkoutState) (sets : List SetDict) :
    WorkoutState :=
  ((group_by_exercise sets).foldl ingest_group (st, 0)).1

/-- Removes the first row carrying the given `order_num` value. -/
def remove_first_with_order (m : ℕ) :
    List WorkoutExerciseRow → List WorkoutExerciseRow
  | [] => []
  | we :: rest => if we.order_num = m then rest else we :: remove_first_with_order m rest

/-- Embeds `delete_last_workout_exercise` (crud.py lines 361-377): deletes
a row with the maximal `order_num` (the SQL `ORDER BY order_num DESC LIMIT
1`; among equal `order_num` values the source's choice is unspecified, here
the earliest inserted is taken). Returns `false` when there is nothing to
delete. -/
def delete_last_workout_exercise (st : WorkoutState) : WorkoutState × Bool :=
  match (st.wes.map (·.order_num)).max? with
  | none => (st, false)
  | some m => ({ st with wes := remove_first_with_order m st.wes }, true)

/-- The volume recomputation of `remove_last_set` (crud.py lines 400-404):
`(s.weight_kg or 0) * (s.reps or 0)` summed over the remaining sets. -/
def recompute_volume (sets : List SetRow) : ℚ :=
  sets.foldl (fun v s => v + s.weight_kg.getD 0 * ((s.reps.getD 0 : ℤ) : ℚ)) 0

/-- Embeds `remove_last_set` (crud.py lines 380-407): drops the last set of
the last `WorkoutExercise` and recomputes that row's `volume_kg`
(`new_vol if new_vol else None`). Returns `false` when there is no exercise
or no set. -/
def remove_last_set (st : WorkoutState) : WorkoutState × Bool :=
  match st.wes.getLast? with
  | none => (st, false)
  | some last_we =>
    match last_we.sets.getLast? with
    | none => (st, false)
    | some _ =>
      let remaining := last_we.sets.dropLast
      let v := recompute_volume remaining
      ({ st with wes := st.wes.dropLast ++
          [{ last_we with sets := remaining,
                          volume_kg := if v = 0 then none else some v }] },
       true)

/-- C2 (code bug): ingesting two set batches into the same workout gives
both WorkoutExercises `order_num = 0` — the counter restarts at 0 on every
call instead of continuing from the current maximum (contrast
`add_workout_exercise`, crud.py lines 322-327, which computes
`coalesce(max(order_num), -1) + 1`), so the orderNum values are neither
strictly increasing nor gapless. -/
theorem order_num_restarts_at_zero :
    ((add_workout_sets_with_session
        (add_workout_sets_with_session ⟨[], 0, []⟩ [⟨"bench press", some 5, some 10⟩])
        [⟨"squat", some 5, some 10⟩]).wes.map (·.order_num)) = [0, 0] := by decide

/-! ### The volume invariant (C5) -/

/-- The weighted-volume contribution of one input dict: `weight × reps`
when both are present, else 0. -/
def set_dict_contribution (s : SetDict) : ℚ :=
  match s.weight_kg, s.reps with
  | some w, some r => w * (r : ℚ)
  | _, _ => 0

/-- The weighted-volume contribution of one stored set row. -/
def set_row_contribution (s : SetRow) : ℚ :=
  match s.weight_kg, s.reps with
  | some w, some r => w * (r : ℚ)
  | _, _ => 0

/-- Sum of `weight × reps` over the sets where both are present. -/
def weighted_sum_rows (sets : List SetRow) : ℚ :=
  (sets.map set_row_contribution).sum

/-- The claim's volume invariant for one `WorkoutExercise` row: the stored
volume equals the weighted sum whenever it is set, and it is unset exactly
when no set contributes a (nonzero) weighted volume, i.e. the weighted sum
is 0. -/
def volume_consistent (we : WorkoutExerciseRow) : Prop :=
  (∀ v, we.volume_kg = some v → v = weighted_sum_rows we.sets) ∧
  (we.volume_kg = none ↔ weighted_sum_rows we.sets = 0)

theorem foldl_volume_step (g : List SetDict) (a : ℚ) :
    g.foldl volume_step a = a + (g.map set_dict_contribution).sum := by
  induction g generalizing a with
  | nil => simp
  | cons s rest ih =>
    have hstep : volume_step a s = a + set_dict_contribution s := by
      unfold volume_step set_dict_contribution
      rcases s.weight_kg with _ | w <;> rcases s.reps with _ | r <;> simp
    simp only [List.foldl_cons, List.map_cons, List.sum_cons, ih, hstep]
    ring

theorem weighted_sum_build_sets (g : List SetDict) (n : ℕ) :
    weighted_sum_rows (build_sets_from n g) = (g.map set_dict_contribution).sum := by
  induction g generalizing n with
  | nil => rfl
  | cons s rest ih =>
    simp only [build_sets_from, weighted_sum_rows, List.map_cons, List.sum_cons] at *
    rw [ih]
    congr 1

theorem weighted_volume_eq_sum (g : List SetDict) :
    weighted_volume g = weighted_sum_rows (build_sets_from 0 g) := by
  rw [weighted_volume, foldl_volume_step, weighted_sum_build_sets, zero_add]

theorem recompute_volume_eq (sets : List SetRow) :
    recompute_volume sets = weighted_sum_rows sets := by
  unfold recompute_volume weighted_sum_rows
  induction sets with
  | nil => rfl
  | cons s rest ih =>
    have hgen : ∀ (l : List SetRow) (a : ℚ),
        l.foldl (fun v s => v + s.weight_kg.getD 0 * ((s.reps.getD 0 : ℤ) : ℚ)) a =
          a + (l.map set_row_contribution).sum := by
      intro l
      induction l with
      | nil => simp
      | cons t rest2 ih2 =>
        intro a
        have hterm : t.weight_kg.getD 0 * ((t.reps.getD 0 : ℤ) : ℚ) =
            set_row_contribution t := by
          unfold set_row_contribution
          rcases t.weight_kg with _ | w <;> rcases t.reps with _ | r <;> simp
        simp only [List.foldl_cons, List.map_cons, List.sum_cons, ih2, hterm]
        ring
    simpa using hgen (s :: rest) 0

theorem find_or_create_exercise_wes (st : WorkoutState) (name : String) :
    (find_or_create_exercise st name).2.wes = st.wes := by
  unfold find_or_create_exercise
  split <;> rfl

/-- A freshly ingested `WorkoutExercise` row satisfies the invariant: its
volume is the weighted sum, stored as `none` when that sum is 0. -/
theorem ingest_group_inv (p : WorkoutState × ℕ) (ng : String × List SetDict)
    (h : ∀ we ∈ p.1.wes, volume_consistent we) :
    ∀ we ∈ (ingest_group p ng).1.wes, volume_consistent we := by
  intro we hwe
  unfold ingest_group at hwe
  simp only [find_or_create_exercise_wes, List.mem_append, List.mem_singleton] at hwe
  rcases hwe with hold | rfl
  · exact h _ hold
  · constructor
    · intro v hv
      simp only at hv
      split at hv
      · exact absurd hv (by simp)
      · rename_i hvne
        cases hv
        rw [← weighted_volume_eq_sum]
    · simp only
      rw [← weighted_volume_eq_sum]
      split
      · rename_i hv0
        simp [hv0]
      · rename_i hvne
        simp [hvne]

/-- C5: the volume invariant is preserved by every batch ingestion and by
deleting the last set: the stored `volume_kg` equals the sum of
`weight × reps` over the sets where both are present, and is unset exactly
when no set contributes a nonzero weighted volume. -/
theorem volume_invariant_preserved (st : WorkoutState) (sets : List SetDict)
    (h : ∀ we ∈ st.wes, volume_consistent we) :
    (∀ we ∈ (add_workout_sets_with_session st sets).wes, volume_consistent we) ∧
    (∀ we ∈ (remove_last_set st).1.wes, volume_consistent we) := by
  constructor
  · unfold add_workout_sets_with_session
    have hgen : ∀ (groups : List (String × List SetDict)) (p : WorkoutState × ℕ),
        (∀ we ∈ p.1.wes, volume_consistent we) →
        ∀ we ∈ (groups.foldl ingest_group p).1.wes, volume_consistent we := by
      intro groups
      induction groups with
      | nil => intro p hp; exact hp
      | cons ng rest ih =>
        intro p hp
        exact ih (ingest_group p ng) (ingest_group_inv p ng hp)
    exact hgen (group_by_exercise sets) (st, 0) h
  · unfold remove_last_set
    split
    · exact h
    · rename_i last_we _
      split
      · exact h
      · intro we hwe
        simp only [List.mem_append, List.mem_singleton] at hwe
        rcases hwe with hold | rfl
        · exact h _ (List.dropLast_subset _ hold)
        · constructor
          · intro v hv
            simp only at hv
            split at hv
            · exact absurd hv (by simp)
            · cases hv
              rw [← recompute_volume_eq]
          · simp only
            rw [← recompute_volume_eq]
            split
            · rename_i hv0
              simp [hv0]
            · rename_i hvne
              simp [hvne]

/-- C5 witness: the invariant holds after ingesting a two-set bench-press
batch into a fresh workout (and after `remove_last_set` on the empty
state). -/
theorem volume_invariant_preserved_witness :
    (∀ we ∈ (add_workout_sets_with_session ⟨[], 0, []⟩
        [⟨"bench press", some 10, some 80⟩, ⟨"bench press", some 8, some 85⟩]).wes,
      volume_consistent we) ∧
    (∀ we ∈ (remove_last_set ⟨[], 0, []⟩).1.wes, volume_consistent we) :=
  volume_invariant_preserved ⟨[], 0, []⟩
    [⟨"bench press", some 10, some 80⟩, ⟨"bench press", some 8, some 85⟩]
    (by intro we hwe; exact absurd hwe (List.not_mem_nil we))

/-! ### Record tracking (check_and_save_records, bot/database/crud.py
lines 518-595) -/

/-- A row of the `records` table. -/
structure RecordRow where
  user_id : ℕ
  exercise_id : ℕ
  record_type : String
  value : ℚ
  workout_id : Option ℕ
deriving DecidableEq, Repr

/-- A row of the `workouts` table with its loaded workout_exercises. -/
structure WorkoutRow where
  id : ℕ
  user_id : ℕ
  workout_exercises : List WorkoutExerciseRow
deriving DecidableEq, Repr

/-- The record store state `check_and_save_records` runs against. -/
structure RecordsDB where
  workouts : List WorkoutRow
  records : List RecordRow
deriving DecidableEq, Repr

/-- The per-type lookup of the user's stored records for one exercise: the
source builds `existing = {r.record_type: r for r in ...}` from an
unordered query, so for a given type the last matching row wins. -/
def existing_record (records : List RecordRow) (user ex : ℕ) (t : String) : Option ℚ :=
  ((records.filter (fun r =>
      decide (r.user_id = user ∧ r.exercise_id = ex ∧ r.record_type = t))).getLast?).map
    (·.value)

/-- The `max_weight` computation: greatest single-set weight over the sets
that carry a weight, `none` when no set does. -/
def max_weight_of (sets : List SetRow) : Option ℚ :=
  sets.foldl (fun acc s =>
    match s.weight_kg with
    | none => acc
    | some w =>
      match acc with
      | none => some w
      | some m => if m < w then some w else some m) none

/-- The `max_1rm` computation: greatest Epley estimate over the sets with
both reps and weight, `none` when no set has both. -/
def max_1rm_of (sets : List SetRow) : Option ℚ :=
  sets.foldl (fun acc s =>
    match s.reps, s.weight_kg with
    | some r, some w =>
      match acc with
      | none => some (calculate_1rm r w)
      | some m => if m < calculate_1rm r w then some (calculate_1rm r w) else some m
    | _, _ => acc) none

/-- The three (record_type, computed value) pairs of the source loop. Note
the volume entry is `float(we.volume_kg or 0)`: always computed, an unset
volume coerced to 0. -/
def kind_values (we : WorkoutExerciseRow) : List (String × Option ℚ) :=
  [("max_weight", max_weight_of we.sets),
   ("max_volume", some (we.volume_kg.getD 0)),
   ("max_1rm", max_1rm_of we.sets)]

/-- The per-kind decision: skip a `none` value; write a new row when there
is no stored record or the computed value strictly exceeds it. -/
def kind_record (records : List RecordRow) (user ex wid : ℕ)
    (tv : String × Option ℚ) : Option RecordRow :=
  match tv.2 with
  | none => none
  | some v =>
    match existing_record records user ex tv.1 with
    | none => some ⟨user, ex, tv.1, v, some wid⟩
    | some pv => if pv < v then some ⟨user, ex, tv.1, v, some wid⟩ else none

/-- The body of the `for we in workout.workout_exercises` loop: rows with a
dangling exercise reference are skipped, otherwise each of the three kinds
may produce a new record row. -/
def process_we (records : List RecordRow) (user wid : ℕ)
    (we : WorkoutExerciseRow) : List RecordRow :=
  match we.exercise with
  | none => []
  | some _ => (kind_values we).filterMap (kind_record records user we.exercise_id wid)

def find_workout (db : RecordsDB) (wid : ℕ) : Option WorkoutRow :=
  db.workouts.find? (fun w => w.id == wid)

/-- Embeds `check_and_save_records` (crud.py lines 518-595): an unknown
workout id returns `[]` and leaves the store untouched; otherwise every
workout exercise is processed against the records present at call time (the
session has `autoflush=False`, so rows added during the call are not seen
by the per-exercise queries) and the new rows are appended on the final
flush. Returns the new rows together with the updated store. -/
def check_and_save_records (db : RecordsDB) (wid : ℕ) :
    List RecordRow × RecordsDB :=
  match find_workout db wid with
  | none => ([], db)
  | some w =>
    let new_records := w.workout_exercises.flatMap (process_we db.records w.user_id wid)
    (new_records, { db with records := db.records ++ new_records })

/-- Key of a record row, as the claims quantify it. -/
def record_key (r : RecordRow) (user ex : ℕ) (t : String) : Prop :=
  r.user_id = user ∧ r.exercise_id = ex ∧ r.record_type = t

theorem kind_record_some {records : List RecordRow} {user ex wid : ℕ}
    {t : String} {v? : Option ℚ} {r : RecordRow}
    (h : kind_record records user ex wid (t, v?) = some r) :
    r.user_id = user ∧ r.exercise_id = ex ∧ r.record_type = t ∧
    (existing_record records user ex t = none ∨
     ∃ pv, existing_record records user ex t = some pv ∧ pv < r.value) := by
  unfold kind_record at h
  rcases v? with _ | v
  · exact absurd h (by simp)
  · dsimp only at h
    rcases hlook : existing_record records user ex t with _ | pv <;>
      rw [hlook] at h <;> dsimp only at h
    · cases h
      exact ⟨rfl, rfl, rfl, Or.inl rfl⟩
    · split at h
      · cases h
        rename_i hlt
        exact ⟨rfl, rfl, rfl, Or.inr ⟨pv, rfl, hlt⟩⟩
      · exact absurd h (by simp)

theorem process_we_mem {records : List RecordRow} {user wid : ℕ}
    {we : WorkoutExerciseRow} {r : RecordRow}
    (h : r ∈ process_we records user wid we) :
    existing_record records r.user_id r.exercise_id r.record_type = none ∨
    ∃ pv, existing_record records r.user_id r.exercise_id r.record_type = some pv ∧
          pv < r.value := by
  unfold process_we at h
  rcases hex : we.exercise with _ | name <;> rw [hex] at h
  · exact absurd h (List.not_mem_nil r)
  · obtain ⟨tv, _, htv⟩ := List.mem_filterMap.mp h
    obtain ⟨t, v?⟩ := tv
    obtain ⟨hu, he, ht, hrest⟩ := kind_record_some htv
    rw [hu, he, ht]
    exact hrest

theorem existing_record_append (l1 l2 : List RecordRow) (user ex : ℕ) (t : String)
    (h : ∀ r ∈ l2, ¬ record_key r user ex t) :
    existing_record (l1 ++ l2) user ex t = existing_record l1 user ex t := by
  unfold existing_record
  rw [List.filter_append]
  have h2 : l2.filter (fun r =>
      decide (r.user_id = user ∧ r.exercise_id = ex ∧ r.record_type = t)) = [] := by
    rw [List.filter_eq_nil_iff]
    intro r hr
    simpa [record_key] using h r hr
  rw [h2, List.append_nil]

/-- C3: for every (user, exercise, kind) with an existing stored record of
value V, `check_and_save_records` only writes rows for that key whose value
strictly exceeds V, and when it writes none the stored record for that key
is unchanged (still V). An equal or lower computed value therefore never
mutates the record. -/
theorem check_records_strict_improvement (db : RecordsDB) (wid user ex : ℕ)
    (t : String) (V : ℚ)
    (h : existing_record db.records user ex t = some V) :
    (∀ r ∈ (check_and_save_records db wid).1, record_key r user ex t → V < r.value) ∧
    ((∀ r ∈ (check_and_save_records db wid).1, ¬ record_key r user ex t) →
      existing_record (check_and_save_records db wid).2.records user ex t = some V) := by
  constructor
  · intro r hr hkey
    unfold check_and_save_records at hr
    rcases hw : find_workout db wid with _ | w <;> rw [hw] at hr
    · exact absurd hr (List.not_mem_nil r)
    · simp only [List.mem_flatMap] at hr
      obtain ⟨we, _, hmem⟩ := hr
      obtain ⟨hu, he2, ht⟩ := hkey
      rcases process_we_mem hmem with hnone | ⟨pv, hsome, hlt⟩
      · rw [hu, he2, ht, h] at hnone
        exact absurd hnone (by simp)
      · rw [hu, he2, ht, h] at hsome
        cases hsome
        exact hlt
  · intro hnone
    unfold check_and_save_records at hnone ⊢
    rcases hw : find_workout db wid with _ | w
    · dsimp only
      exact h
    · rw [hw] at hnone
      dsimp only at hnone ⊢
      rw [existing_record_append _ _ _ _ _ hnone]
      exact h

/-- C3 witness: a store holding a max_weight record of 100 for user 1,
exercise 2, checked against an unknown workout id (no rows written, record
unchanged). -/
theorem check_records_strict_improvement_witness :
    (∀ r ∈ (check_and_save_records ⟨[], [⟨1, 2, "max_weight", 100, none⟩]⟩ 1).1,
      record_key r 1 2 "max_weight" → (100 : ℚ) < r.value) ∧
    ((∀ r ∈ (check_and_save_records ⟨[], [⟨1, 2, "max_weight", 100, none⟩]⟩ 1).1,
        ¬ record_key r 1 2 "max_weight") →
      existing_record
        (check_and_save_records ⟨[], [⟨1, 2, "max_weight", 100, none⟩]⟩ 1).2.records
        1 2 "max_weight" = some 100) :=
  check_records_strict_improvement ⟨[], [⟨1, 2, "max_weight", 100, none⟩]⟩ 1 1 2
    "max_weight" 100 (by decide)

/-- C10: when the workout id matches no stored workout,
`check_and_save_records` returns the empty list and leaves the record store
unchanged. -/
theorem check_records_missing_workout (db : RecordsDB) (wid : ℕ)
    (h : find_workout db wid = none) :
    check_and_save_records db wid = ([], db) := by
  unfold check_and_save_records
  rw [h]

/-- C10 witness: the empty store with workout id 1. -/
theorem check_records_missing_workout_witness :
    check_and_save_records ⟨[], []⟩ 1 = ([], ⟨[], []⟩) :=
  check_records_missing_workout ⟨[], []⟩ 1 (by decide)

/-- A pure-cardio workout exercise: one set with 30 "reps" (minutes) and no
weight, hence no stored volume. -/
def c4_cardio_we : WorkoutExerciseRow :=
  ⟨3, some "treadmill run", 0, [⟨1, some 30, none⟩], none⟩

def c4_db : RecordsDB := ⟨[⟨1, 7, [c4_cardio_we]⟩], []⟩

/-- C4 counterexample: for a workout exercise none of whose sets carries a
weight (volume not computable, stored as unset), `check_and_save_records`
still persists a `max_volume` record of value 0, because the source coerces
the unset volume with `float(we.volume_kg or 0)` and the pair
`("max_volume", volume)` is never skipped. -/
theorem zero_volume_record_persisted :
    (∀ s ∈ c4_cardio_we.sets, s.weight_kg = none) ∧
    c4_cardio_we.volume_kg = none ∧
    ∃ r ∈ (check_and_save_records c4_db 1).1,
      r.record_type = "max_volume" ∧ r.value = 0 := by decide

theorem max_weight_of_none (sets : List SetRow)
    (h : ∀ s ∈ sets, s.weight_kg = none) : max_weight_of sets = none := by
  induction sets with
  | nil => rfl
  | cons s rest ih =>
    unfold max_weight_of at *
    simp only [List.foldl_cons]
    rw [h s (List.mem_cons_self s rest)]
    exact ih (fun s2 hs2 => h s2 (List.mem_cons_of_mem _ hs2))

theorem max_1rm_of_none (sets : List SetRow)
    (h : ∀ s ∈ sets, s.weight_kg = none) : max_1rm_of sets = none := by
  induction sets with
  | nil => rfl
  | cons s rest ih =>
    unfold max_1rm_of at *
    simp only [List.foldl_cons]
    rw [h s (List.mem_cons_self s rest)]
    have hred : (match s.reps, (none : Option ℚ) with
        | some r, some w =>
          match (none : Option ℚ) with
          | none => some (calculate_1rm r w)
          | some m => if m < calculate_1rm r w then some (calculate_1rm r w) else some m
        | _, _ => (none : Option ℚ)) = (none : Option ℚ) := by
      rcases s.reps with _ | r <;> rfl
    rw [hred]
    exact ih (fun s2 hs2 => h s2 (List.mem_cons_of_mem _ hs2))

theorem kind_record_value {records : List RecordRow} {user ex wid : ℕ}
    {t : String} {v : ℚ} {r : RecordRow}
    (h : kind_record records user ex wid (t, some v) = some r) :
    r.record_type = t ∧ r.value = v := by
  unfold kind_record at h
  dsimp only at h
  rcases hlook : existing_record records user ex t with _ | pv <;>
    rw [hlook] at h <;> dsimp only at h
  · cases h
    exact ⟨rfl, rfl⟩
  · split at h
    · cases h
      exact ⟨rfl, rfl⟩
    · exact absurd h (by simp)

/-- C4 amended: the `max_weight` and `max_1rm` kinds with no computable
value are indeed skipped — when no set of a workout exercise carries a
weight, the only record that can be persisted for it is a `max_volume`
record whose value is the stored volume coerced to 0 when unset (so a
0-value `max_volume` row can be written; the other kinds never produce a
fabricated 0). -/
theorem weightless_sets_only_volume_record (records : List RecordRow)
    (user wid : ℕ) (we : WorkoutExerciseRow)
    (h : ∀ s ∈ we.sets, s.weight_kg = none) :
    ∀ r ∈ process_we records user wid we,
      r.record_type = "max_volume" ∧ r.value = we.volume_kg.getD 0 := by
  intro r hr
  unfold process_we at hr
  rcases hex : we.exercise with _ | name <;> rw [hex] at hr
  · exact absurd hr (List.not_mem_nil r)
  · obtain ⟨tv, htvmem, htv⟩ := List.mem_filterMap.mp hr
    simp only [kind_values, List.mem_cons, List.not_mem_nil, or_false] at htvmem
    rcases htvmem with rfl | rfl | rfl
    · rw [max_weight_of_none we.sets h] at htv
      exact absurd htv (by simp [kind_record])
    · exact kind_record_value htv
    · rw [max_1rm_of_none we.sets h] at htv
      exact absurd htv (by simp [kind_record])

/-- The single record row emitted for the cardio exercise. -/
def c4_row : RecordRow := ⟨7, 3, "max_volume", 0, some 1⟩

/-- C4 amended witness: the amended theorem applied to the concrete
cardio exercise and the concrete row it emits. -/
theorem weightless_sets_only_volume_record_witness :
    c4_row.record_type = "max_volume" ∧ c4_row.value = c4_cardio_we.volume_kg.getD 0 :=
  weightless_sets_only_volume_record [] 7 1 c4_cardio_we (by decide) c4_row (by decide)

/-! ### Clarification dialogue of the workout session
(_process_parsed_workout and handle_text_during_workout,
bot/handlers/workout.py lines 46-191 and 671-759)

The parser output (an external GPT call) is supplied as event data; the
resolver is the `match_exercise` embedding above, applied to the session's
catalog. Database writes of confirmed sets do not affect this dialogue
state and are not tracked here. -/

/-- One parsed set dict `{reps, weight, ...}` pending clarification. -/
structure ParsedSet where
  reps : Option ℤ
  weight : Option ℚ
deriving DecidableEq, Repr

/-- One entry of `parsed["exercises"]`. -/
structure ParsedExercise where
  name : String
  sets : List ParsedSet
deriving DecidableEq, Repr

/-- The relevant part of a `parse_workout_message` result. -/
structure Parsed where
  clarification_needed : Bool
  clarification_question : Option String
  exercises : List ParsedExercise
deriving DecidableEq, Repr

/-- The `pending_clarification` dict kept in the FSM context. -/
structure PendingClarification where
  name : String
  sets_list : List ParsedSet
  attempts : ℕ
deriving DecidableEq, Repr

/-- The FSM-context fields the clarification dialogue uses. -/
structure SessionState where
  pending_clarification : Option PendingClarification
  pending_unknown_exercise : Option (String × List ParsedSet)
deriving DecidableEq, Repr

/-- The user-visible outcome of handling one message. -/
inductive Reply where
  | clarifyQuestion
  | unparsed
  | alternativesPrompt (alts : List Candidate)
  | addNewPrompt (name : String)
  | savedAll
  | retypePrompt
  | stale
deriving DecidableEq, Repr

/-- Texts treated as refusing the offered alternatives
(CLARIFICATION_REFUSAL, workout.py line 672). -/
def CLARIFICATION_REFUSAL : List String :=
  ["нет", "не то", "no", "не", "другое", "ничего из этого"]

/-- Python `message.text.strip().lower()`. -/
def py_lower_strip (s : String) : String := ⟨normalize_name s⟩

/-- Python truthiness of `parsed.get("clarification_question")`. -/
def question_truthy : Option String → Bool
  | some s => s ≠ ""
  | none => false

/-- Python `message.text.strip() or "Упражнение"`. -/
def clean_name (text : String) : String :=
  if py_strip text = "" then "Упражнение" else py_strip text

/-- Python `pending_clar.get("attempts", 0)` on the freshly read state. -/
def pending_attempts (st : SessionState) : ℕ :=
  match st.pending_clarification with
  | some pc => pc.attempts
  | none => 0

/-- The `for exercise_data in parsed["exercises"]` loop of
`_process_parsed_workout` (workout.py lines 72-191): confidence ≥ 0.9
persists and continues; 0.6 ≤ confidence < 0.9 offers add-as-new when the
attempt counter already reached 2, else presents alternatives (resetting
the pending clarification to attempts = 1), or offers add-as-new when
there are none; confidence < 0.6 offers add-as-new. -/
def process_exercises (db : List ExerciseEntry) (st : SessionState) :
    List ParsedExercise → SessionState × Reply
  | [] => (st, .savedAll)
  | pex :: rest =>
    if mkRat 9 10 ≤ (match_exercise pex.name db).confidence then
      process_exercises db st rest
    else if mkRat 3 5 ≤ (match_exercise pex.name db).confidence then
      if 2 ≤ pending_attempts st then
        ({ st with pending_clarification := none,
                   pending_unknown_exercise := some (pex.name, pex.sets) },
         .addNewPrompt pex.name)
      else if (match_exercise pex.name db).alternatives ≠ [] then
        ({ st with pending_clarification := some ⟨pex.name, pex.sets, 1⟩ },
         .alternativesPrompt (match_exercise pex.name db).alternatives)
      else
        ({ st with pending_unknown_exercise := some (pex.name, pex.sets) },
         .addNewPrompt pex.name)
    else
      ({ st with pending_unknown_exercise := some (pex.name, pex.sets) },
       .addNewPrompt pex.name)

/-- The entry of `_process_parsed_workout` (workout.py lines 54-70): a
clarification question passes through; an empty exercises list asks to
rephrase; otherwise the loop runs. -/
def process_parsed (db : List ExerciseEntry) (st : SessionState)
    (parsed : Parsed) : SessionState × Reply :=
  if parsed.clarification_needed = true ∧
      question_truthy parsed.clarification_question = true then
    (st, .clarifyQuestion)
  else if parsed.exercises = [] then
    (st, .unparsed)
  else
    process_exercises db st parsed.exercises

/-- Embeds `handle_text_during_workout` (workout.py lines 675-759): with a
pending clarification at attempts = 1, a refusal text moves the counter to
2 and asks for a retype; at attempts = 2 the raw text is re-resolved once —
stale data aborts, confidence ≥ 0.9 persists the pending sets, anything
else offers add-as-new — and the pending clarification is cleared; any
other text goes through parsing as usual. -/
def handle_text_during_workout (db : List ExerciseEntry) (st : SessionState)
    (text : String) (parsed : Parsed) : SessionState × Reply :=
  match st.pending_clarification with
  | some pc =>
    if pc.attempts = 1 ∧ py_lower_strip text ∈ CLARIFICATION_REFUSAL then
      ({ st with pending_clarification := some { pc with attempts := 2 } },
       .retypePrompt)
    else if pc.attempts = 2 then
      if pc.sets_list = [] then
        ({ st with pending_clarification := none }, .stale)
      else if mkRat 9 10 ≤ (match_exercise (clean_name text) db).confidence then
        ({ st with pending_clarification := none }, .savedAll)
      else
        ({ st with pending_clarification := none,
                   pending_unknown_exercise := some (clean_name text, pc.sets_list) },
         .addNewPrompt (clean_name text))
    else
      process_parsed db st parsed
  | none => process_parsed db st parsed

def is_alternatives_prompt : Reply → Bool
  | .alternativesPrompt _ => true
  | _ => false

/-- A two-entry catalog with no localized names: any query matches both
entries at the localized-name tier (the empty string is a Python substring
of everything), with confidence 0.85 and a nonempty alternatives list. -/
def c1_db : List ExerciseEntry :=
  [⟨some 0, "lat pulldown machine", "", []⟩, ⟨some 1, "seated cable row", "", []⟩]

/-- A parse result reporting one exercise named `n` with one set. -/
def c1_parsed (n : String) : Parsed :=
  ⟨false, none, [⟨n, [⟨some 5, some 10⟩]⟩]⟩

def c1_step1 : SessionState × Reply :=
  handle_text_during_workout c1_db ⟨none, none⟩ "zzz" (c1_parsed "zzz")

def c1_step2 : SessionState × Reply :=
  handle_text_during_workout c1_db c1_step1.1 "zzy" (c1_parsed "zzy")

def c1_step3 : SessionState × Reply :=
  handle_text_during_workout c1_db c1_step2.1 "zzx" (c1_parsed "zzx")

/-- C1 counterexample: three successive ambiguously-resolving retyped names
(none of them a refusal word) produce three alternatives prompts in a row
while a clarification is pending throughout — after the second unsuccessful
retyped name the system presents a third alternatives prompt instead of the
add-as-new offer, because `_process_parsed_workout` resets the attempt
counter to 1 on every non-refusal message. -/
theorem clarification_third_alternatives_prompt :
    (is_alternatives_prompt c1_step1.2 ∧ c1_step1.1.pending_clarification.isSome) ∧
    (is_alternatives_prompt c1_step2.2 ∧ c1_step2.1.pending_clarification.isSome) ∧
    is_alternatives_prompt c1_step3.2 := by decide

/-- C1 amended: the 2-round cap holds on the refusal path — once the
pending attempt counter has reached 2 (after the user refused the offered
alternatives), the next message never yields an alternatives prompt: the
pending clarification is cleared, and when the pending sets are intact and
the retyped name does not resolve with confidence ≥ 0.9 the reply is the
add-as-new offer. (A non-refusal retype while attempts = 1 restarts the
clarification at attempts = 1, so alternatives prompts are not globally
capped at 2.) -/
theorem clarification_cap_refusal_path (db : List ExerciseEntry)
    (st : SessionState) (text : String) (parsed : Parsed)
    (pc : PendingClarification)
    (h1 : st.pending_clarification = some pc) (h2 : pc.attempts = 2) :
    is_alternatives_prompt (handle_text_during_workout db st text parsed).2 = false
    ∧ (handle_text_during_workout db st text parsed).1.pending_clarification = none
    ∧ (pc.sets_list ≠ [] →
        (match_exercise (clean_name text) db).confidence < mkRat 9 10 →
        (handle_text_during_workout db st text parsed).2 =
          Reply.addNewPrompt (clean_name text)) := by
  unfold handle_text_during_workout
  rw [h1]
  dsimp only
  rw [if_neg (by rw [h2]; rintro ⟨hx, -⟩; exact absurd hx (by norm_num)),
      if_pos h2]
  split
  · exact ⟨rfl, rfl, fun hs _ => absurd (by assumption) hs⟩
  · split
    · refine ⟨rfl, rfl, fun _ hconf => ?_⟩
      exact absurd (by assumption) (not_le.mpr hconf)
    · exact ⟨rfl, rfl, fun _ _ => rfl⟩

/-- C1 amended witness: a pending clarification at attempts = 2 against an
empty catalog; the next message yields the add-as-new offer. -/
theorem clarification_cap_refusal_path_witness :
    (handle_text_during_workout []
        ⟨some ⟨"bench", [⟨some 5, some 10⟩], 2⟩, none⟩ "zzz"
        ⟨false, none, []⟩).2 = Reply.addNewPrompt (clean_name "zzz") :=
  (clarification_cap_refusal_path []
      ⟨some ⟨"bench", [⟨some 5, some 10⟩], 2⟩, none⟩ "zzz" ⟨false, none, []⟩
      ⟨"bench", [⟨some 5, some 10⟩], 2⟩ rfl rfl).2.2 (by decide) (by decide)

end GymVoiceBot
